import Mathlib

/-!
Verification of the zinc transpiler core (`crates/zinc_core/src/lib.rs`).

The transpiler walks a pest parse tree and emits Rust source text.  We embed
the parse tree as the inductive `Pair` (rule tag, matched span text, ordered
children), mirroring `pest::iterators::Pair`, and translate each `transpile_*`
function from the source.  The Rust code contains one potential panic
(`unwrap` inside `unwrap_suffix`), so the transpile functions return
`Option String`, with `none` marking that panic; every other code path is
total and returns `some`.

The grammar file `grammar.pest` is not part of the sources available here;
where a claim depends on the set of trees the grammar can produce, that set
is modelled from the specification and noted as such.
-/

namespace Zinc

/-- The grammar rule tags that `zinc_core` dispatches on (the `Rule` enum
generated by pest from `grammar.pest`). `other` stands for any further
rule (structural tokens such as `EOI`) that the transpiler ignores. -/
inductive Rule : Type where
  | program
  | statement
  | expr_stmt
  | let_stmt
  | if_stmt
  | loop_stmt
  | break_stmt
  | fn_def
  | block
  | expr
  | term
  | atom
  | call
  | array
  | string
  | number
  | identifier
  | suffix
  | indexing_suffix
  | member_suffix
  | arg_list
  | op
  | other
deriving DecidableEq, Repr

/-- A pest parse-tree node: its rule, its matched source text (`as_str`),
and its ordered children (`into_inner`). -/
inductive Pair : Type where
  | mk (rule : Rule) (str : String) (children : List Pair)

/-- `Pair::as_rule`. -/
def Pair.rule : Pair → Rule
  | .mk r _ _ => r

/-- `Pair::as_str`. -/
def Pair.str : Pair → String
  | .mk _ s _ => s

/-- `Pair::into_inner`, as the list of child nodes. -/
def Pair.children : Pair → List Pair
  | .mk _ _ cs => cs

/-- The `ZincError` diagnostic record. -/
structure ZincError : Type where
  line : Nat
  column : Nat
  message : String
  suggestion : String
deriving DecidableEq, Repr

/-- `is_simple_identifier`: first char ASCII-alphabetic or `_`, rest
ASCII-alphanumeric or `_`. -/
def is_simple_identifier (value : String) : Bool :=
  match value.toList with
  | [] => false
  | first :: rest =>
    (first.isAlpha || first = '_') && rest.all (fun c => c.isAlphanum || c = '_')

/-- `transpile_call_with_args`: the bare-call rewrite table. -/
def transpile_call_with_args (name : String) (args : List String) : String :=
  let args_joined := String.intercalate ", " args
  if name = "print" then "println!(\"\x7b:?\x7d\", " ++ args_joined ++ ")"
  else if name = "leak" then "zinc_std::leak()"
  else name ++ "(" ++ args_joined ++ ")"

/-- `transpile_member_call_with_args`: the member-call rewrite table.  Each
recognized `(receiver, method)` pair checks its argument count and returns
empty text on a mismatch, except `py.eval` (no check) and `spider.get`
(two accepted arities, extra arguments beyond the second ignored). -/
def transpile_member_call_with_args (obj : String) (method : String)
    (args : List String) : String :=
  let args_joined := String.intercalate ", " args
  if obj = "db" && method = "query" then
    match args with
    | [a, b] => "zinc_std::db::query(" ++ a ++ ", " ++ b ++ ")"
    | _ => ""
  else if obj = "fs" && method = "read" then
    match args with
    | [a] => "zinc_std::fs::read(" ++ a ++ ")"
    | _ => ""
  else if obj = "fs" && method = "write" then
    match args with
    | [a, b] => "zinc_std::fs::write(" ++ a ++ ", " ++ b ++ ")"
    | _ => ""
  else if obj = "html" && method = "select" then
    match args with
    | [a, b] => "zinc_std::html::select_text(" ++ a ++ ", " ++ b ++ ")"
    | _ => ""
  else if obj = "json" && method = "parse" then
    match args with
    | [a] => "zinc_std::json::parse(" ++ a ++ ")"
    | _ => ""
  else if obj = "json" && method = "get" then
    match args with
    | [a, b] => "zinc_std::json::get(&" ++ a ++ ", " ++ b ++ ")"
    | _ => ""
  else if obj = "json" && method = "at" then
    match args with
    | [a, b] => "zinc_std::json::at(&" ++ a ++ ", " ++ b ++ ")"
    | _ => ""
  else if obj = "json" && method = "to_string" then
    match args with
    | [a] => "zinc_std::json::to_string(" ++ a ++ ")"
    | _ => ""
  else if obj = "spider" && method = "get_proxy" then
    match args with
    | [a, b, c] =>
      "zinc_std::spider::get_with_proxy(" ++ a ++ ", " ++ b ++ ", " ++ c ++ ")"
    | _ => ""
  else if obj = "py" && method = "eval" then
    "zinc_std::python::eval(" ++ args_joined ++ ")"
  else if obj = "spider" && method = "get" then
    match args with
    | [] => ""
    | [a] => "zinc_std::spider::get(" ++ a ++ ", None)"
    | a :: b :: _ => "zinc_std::spider::get(" ++ a ++ ", Some(" ++ b ++ "))"
  else obj ++ "." ++ method ++ "(" ++ args_joined ++ ")"

/-- `unwrap_suffix`: a `suffix` wrapper node is replaced by its first child;
`none` models the `unwrap()` panic when a `suffix` node has no children. -/
def unwrap_suffix (pair : Pair) : Option Pair :=
  if pair.rule = Rule.suffix then pair.children.head? else some pair

/-- Rust's `str::replace` restricted to a two-character pattern `[a, b]`
(leftmost, non-overlapping), on character lists. -/
def replace2 (a : Char) (b : Char) (repl : List Char) : List Char → List Char
  | [] => []
  | [x] => [x]
  | x :: y :: rest =>
    if x = a ∧ y = b then repl ++ replace2 a b repl rest
    else x :: replace2 a b repl (y :: rest)

/-- `transpile_string`: strip the quote delimiters, unescape `\"` then `\\`,
and wrap in a Rust raw string literal `r#"…"#`.  (The Rust code slices off
the first and last byte; the delimiters are ASCII quotes, so character-level
slicing agrees.) -/
def transpile_string (raw : String) : String :=
  if raw.length < 2 then ""
  else
    let inner := (raw.toList.drop 1).dropLast
    let unescaped := replace2 '\\' '"' ['"'] inner
    let unescaped := replace2 '\\' '\\' ['\\'] unescaped
    String.mk ("r#\"".toList ++ unescaped ++ "\"#".toList)

mutual

/-- `transpile_expr`: dispatch on the node's rule; an `expr` node is a
left-to-right chain of terms joined by operator tokens. -/
def transpile_expr (pair : Pair) : Option String :=
  match pair with
  | .mk .expr _ [] => some ""
  | .mk .expr _ (first :: rest) => do
    let current ← transpile_expr first
    expr_chain current rest
  | .mk .term s cs => transpile_term (.mk .term s cs)
  | .mk .call s cs => transpile_call (.mk .call s cs)
  | .mk .array s cs => transpile_array (.mk .array s cs)
  | .mk .string s _ => some (transpile_string s)
  | .mk .number s _ => some s
  | .mk .identifier s _ => some s
  | _ => some ""
termination_by 8 * sizeOf pair + 2
decreasing_by all_goals (simp_wf <;> omega)

/-- The `while let Some(op) = inner.next()` loop inside `transpile_expr`:
consume an operator token and its right-hand term, update the accumulator,
continue; a trailing operator with no right-hand side stops the loop. -/
def expr_chain (current : String) : List Pair → Option String
  | [] => some current
  | [_] => some current
  | opp :: rhs :: rest =>
    if opp.str = "|>" then do
      let c ← transpile_pipeline current rhs
      expr_chain c rest
    else if opp.str = "+" then do
      let r ← transpile_expr rhs
      expr_chain ("format!(\"\x7b\x7d\x7b\x7d\", " ++ current ++ ", " ++ r ++ ")") rest
    else if opp.str = "==" ∨ opp.str = "!=" ∨ opp.str = ">" ∨ opp.str = "<" ∨
        opp.str = ">=" ∨ opp.str = "<=" then do
      let r ← transpile_expr rhs
      expr_chain ("(" ++ current ++ " " ++ opp.str ++ " " ++ r ++ ")") rest
    else expr_chain current rest
termination_by l => 8 * sizeOf l
decreasing_by all_goals (simp_wf <;> omega)

/-- `transpile_call`. -/
def transpile_call (pair : Pair) : Option String := do
  let (name, args) ← parse_call pair
  pure (transpile_call_with_args name args)
termination_by 8 * sizeOf pair + 1
decreasing_by all_goals (simp_wf <;> omega)

/-- `parse_call`: first child is the callee name, second (if any) the
argument list. -/
def parse_call (pair : Pair) : Option (String × List String) :=
  match pair with
  | .mk _ _ [] => some ("", [])
  | .mk _ _ [p1] => some (p1.str, [])
  | .mk _ _ (p1 :: p2 :: _) => do
    let args ← transpile_arg_list p2
    pure (p1.str, args)
termination_by 8 * sizeOf pair
decreasing_by all_goals (simp_wf <;> omega)

/-- `transpile_arg_list`. -/
def transpile_arg_list (pair : Pair) : Option (List String) :=
  match pair with
  | .mk _ _ cs => arg_loop cs
termination_by 8 * sizeOf pair
decreasing_by all_goals (simp_wf <;> omega)

/-- The loop inside `transpile_arg_list`: lower each argument, skipping the
ones that lower to empty text. -/
def arg_loop : List Pair → Option (List String)
  | [] => some []
  | arg :: rest => do
    let value ← transpile_expr arg
    let tail ← arg_loop rest
    pure (if value = "" then tail else value :: tail)
termination_by l => 8 * sizeOf l
decreasing_by all_goals (simp_wf <;> omega)

/-- `transpile_array`. -/
def transpile_array (pair : Pair) : Option String :=
  match pair with
  | .mk _ _ [] => some ("vec![" ++ "]")
  | .mk _ _ (.mk _ _ elcs :: _) => do
    let items ← array_loop elcs
    pure ("vec![" ++ String.intercalate ", " items ++ "]")
termination_by 8 * sizeOf pair
decreasing_by all_goals (simp_wf <;> omega)

/-- The loop inside `transpile_array`: lower each `expr` child, skipping
empty lowerings. -/
def array_loop : List Pair → Option (List String)
  | [] => some []
  | e :: rest =>
    if e.rule = Rule.expr then do
      let v ← transpile_expr e
      let tail ← array_loop rest
      pure (if v = "" then tail else v :: tail)
    else array_loop rest
termination_by l => 8 * sizeOf l
decreasing_by all_goals (simp_wf <;> omega)

/-- `transpile_pipeline`: `lhs |> rhs` inserts the lowered left operand as
the first argument of the call described by `rhs`. -/
def transpile_pipeline (lhs : String) (rhs_pair : Pair) : Option String :=
  match rhs_pair with
  | .mk .term _ [] => some ""
  | .mk .term _ (atom0 :: suffixes) =>
    match atom0 with
    | .mk .atom _ [] => some ""
    | .mk .atom _ (inner_atom :: _) => pipeline_dispatch lhs inner_atom suffixes
    | a0 => pipeline_dispatch lhs a0 suffixes
  | rp => do
    let r ← transpile_expr rp
    pure (r ++ "(" ++ lhs ++ ")")
termination_by 8 * sizeOf rhs_pair + 3
decreasing_by all_goals (simp_wf <;> omega)

/-- The `match atom.as_rule()` dispatch inside `transpile_pipeline`, after
the `atom` wrapper has been unwrapped. -/
def pipeline_dispatch (lhs : String) (a : Pair) (suffixes : List Pair) :
    Option String :=
  match a with
  | .mk .call s2 cs2 => do
    let (name, args) ← parse_call (.mk .call s2 cs2)
    let out := transpile_call_with_args name (lhs :: args)
    apply_suffixes out suffixes
  | .mk .identifier s _ =>
    match suffixes with
    | [] => some (transpile_call_with_args s [lhs])
    | first :: rest =>
      match first with
      | .mk .suffix _ [] => none
      | .mk .suffix _ (fs :: _) => pipeline_ident_suffix lhs s fs rest
      | f0 => pipeline_ident_suffix lhs s f0 rest
  | a0 => do
    let out ← transpile_atom a0
    let out2 ← apply_suffixes out suffixes
    pure (out2 ++ "(" ++ lhs ++ ")")
termination_by 8 * (sizeOf a + sizeOf suffixes) + 7
decreasing_by all_goals (simp_wf <;> omega)

/-- The identifier-with-suffix branch of `transpile_pipeline`: `fs` is the
(already unwrapped) first suffix, `rest` the remaining suffixes. -/
def pipeline_ident_suffix (lhs : String) (ident : String) (fs : Pair)
    (rest : List Pair) : Option String :=
  match fs with
  | .mk .member_suffix _ cs => do
    let method := match cs with | [] => "" | p :: _ => p.str
    let args ← match cs with
      | _ :: p2 :: _ => transpile_arg_list p2
      | _ => pure []
    let out := transpile_member_call_with_args ident method (lhs :: args)
    apply_suffixes out rest
  | fs0 => do
    let out ← transpile_suffix ident fs0
    let out2 ← apply_suffixes out rest
    pure (out2 ++ "(" ++ lhs ++ ")")
termination_by 8 * (sizeOf fs + sizeOf rest) + 6
decreasing_by all_goals (simp_wf <;> omega)

/-- The `for suffix in inner` folds that apply a chain of suffixes to an
accumulated output string. -/
def apply_suffixes (current : String) : List Pair → Option String
  | [] => some current
  | s :: rest => do
    let c ← transpile_suffix current s
    apply_suffixes c rest
termination_by l => 8 * sizeOf l
decreasing_by all_goals (simp_wf <;> omega)

/-- `transpile_term`: an atom followed by a chain of suffixes. -/
def transpile_term (pair : Pair) : Option String :=
  match pair with
  | .mk _ _ [] => some ""
  | .mk _ _ (a :: suffixes) => do
    let current ← transpile_atom a
    apply_suffixes current suffixes
termination_by 8 * sizeOf pair
decreasing_by all_goals (simp_wf <;> omega)

/-- `transpile_atom`. -/
def transpile_atom (pair : Pair) : Option String :=
  match pair with
  | .mk .atom _ [] => some ""
  | .mk .atom _ (p :: _) => transpile_atom p
  | .mk .array s cs => transpile_array (.mk .array s cs)
  | .mk .call s cs => transpile_call (.mk .call s cs)
  | .mk .string s _ => some (transpile_string s)
  | .mk .number s _ => some s
  | .mk .identifier s _ => some s
  | .mk .expr s cs => transpile_expr (.mk .expr s cs)
  | .mk .term s cs => transpile_term (.mk .term s cs)
  | _ => some ""
termination_by 8 * sizeOf pair + 3
decreasing_by all_goals (simp_wf <;> omega)

/-- `transpile_suffix`, with `unwrap_suffix` inlined as the outer match
(a `suffix` wrapper is replaced by its first child, panicking — `none` —
when it has none). -/
def transpile_suffix (current : String) (sfx : Pair) : Option String :=
  match sfx with
  | .mk .suffix _ [] => none
  | .mk .suffix _ (s :: _) => transpile_suffix_unwrapped current s
  | sfx0 => transpile_suffix_unwrapped current sfx0
termination_by 8 * sizeOf sfx + 1
decreasing_by all_goals (simp_wf <;> omega)

/-- The `match suffix.as_rule()` body of `transpile_suffix`, after
unwrapping. -/
def transpile_suffix_unwrapped (current : String) (s : Pair) : Option String :=
  match s with
  | .mk .indexing_suffix _ cs => do
    let index_expr ← match cs with
      | [] => pure ""
      | p :: _ => transpile_expr p
    pure (if current = "" ∨ index_expr = "" then ""
          else current ++ "[" ++ index_expr ++ " as usize]")
  | .mk .member_suffix _ cs => do
    let method := match cs with | [] => "" | p :: _ => p.str
    let args ← match cs with
      | _ :: p2 :: _ => transpile_arg_list p2
      | _ => pure []
    pure (if method = "" then ""
          else if is_simple_identifier current then
            transpile_member_call_with_args current method args
          else current ++ "." ++ method ++ "(" ++ String.intercalate ", " args ++ ")")
  | _ => some current
termination_by 8 * sizeOf s
decreasing_by all_goals (simp_wf <;> omega)

end

/-- `transpile_break_stmt`. -/
def transpile_break_stmt (_pair : Pair) : String :=
  "break;"

mutual

/-- `transpile_statement`: dispatch on the kind of the statement's single
inner node; unknown kinds lower to empty text. -/
def transpile_statement (pair : Pair) : Option String :=
  match pair with
  | .mk _ _ [] => some ""
  | .mk _ _ (inner_pair :: _) =>
    match inner_pair.rule with
    | .expr_stmt => transpile_expr_stmt inner_pair
    | .let_stmt => transpile_let_stmt inner_pair
    | .if_stmt => transpile_if_stmt inner_pair
    | .loop_stmt => transpile_loop_stmt inner_pair
    | .break_stmt => some (transpile_break_stmt inner_pair)
    | .fn_def => transpile_fn_def inner_pair
    | _ => some ""
termination_by 8 * sizeOf pair
decreasing_by all_goals (simp_wf <;> omega)

/-- `transpile_fn_def`: only the function's block contents are emitted,
spliced in place. -/
def transpile_fn_def (pair : Pair) : Option String :=
  match pair with
  | .mk _ _ cs => fn_def_loop cs
termination_by 8 * sizeOf pair
decreasing_by all_goals (simp_wf <;> omega)

/-- The `for inner in pair.into_inner()` loop of `transpile_fn_def`:
return the lowering of the first `block` child, or empty text. -/
def fn_def_loop : List Pair → Option String
  | [] => some ""
  | c :: rest =>
    if c.rule = Rule.block then transpile_block c else fn_def_loop rest
termination_by l => 8 * sizeOf l
decreasing_by all_goals (simp_wf <;> omega)

/-- `transpile_let_stmt`: requires a non-empty name and a non-empty lowered
expression, else the whole statement lowers to nothing. -/
def transpile_let_stmt (pair : Pair) : Option String :=
  match pair with
  | .mk _ _ cs => do
    let name := match cs with | [] => "" | p :: _ => p.str
    let expr ← match cs with
      | _ :: p2 :: _ => transpile_expr p2
      | _ => pure ""
    pure (if name = "" ∨ expr = "" then ""
          else "let " ++ name ++ " = " ++ expr ++ ";")
termination_by 8 * sizeOf pair
decreasing_by all_goals (simp_wf <;> omega)

/-- `transpile_expr_stmt`. -/
def transpile_expr_stmt (pair : Pair) : Option String :=
  match pair with
  | .mk _ _ [] => some ""
  | .mk _ _ (e :: _) => do
    let expr_out ← transpile_expr e
    pure (if expr_out = "" then "" else expr_out ++ ";")
termination_by 8 * sizeOf pair
decreasing_by all_goals (simp_wf <;> omega)

/-- `transpile_if_stmt`: the three `inner.next()` reads take the first
three children (condition, then-block, else-block), each defaulting when
absent; the emission formula is the same in every branch. -/
def transpile_if_stmt (pair : Pair) : Option String :=
  match pair with
  | .mk _ _ [] => some ""
  | .mk _ _ [p1] => do
    let condition ← transpile_expr p1
    let then_block := ""
    let else_block := ""
    pure (if condition = "" ∨ then_block = "" then ""
          else if else_block = "" then
            "if " ++ condition ++ " \x7b\n" ++ then_block ++ "\x7d"
          else
            "if " ++ condition ++ " \x7b\n" ++ then_block ++
              "\x7d else \x7b\n" ++ else_block ++ "\x7d")
  | .mk _ _ [p1, p2] => do
    let condition ← transpile_expr p1
    let then_block ← transpile_block p2
    let else_block := ""
    pure (if condition = "" ∨ then_block = "" then ""
          else if else_block = "" then
            "if " ++ condition ++ " \x7b\n" ++ then_block ++ "\x7d"
          else
            "if " ++ condition ++ " \x7b\n" ++ then_block ++
              "\x7d else \x7b\n" ++ else_block ++ "\x7d")
  | .mk _ _ (p1 :: p2 :: p3 :: _) => do
    let condition ← transpile_expr p1
    let then_block ← transpile_block p2
    let else_block ← transpile_block p3
    pure (if condition = "" ∨ then_block = "" then ""
          else if else_block = "" then
            "if " ++ condition ++ " \x7b\n" ++ then_block ++ "\x7d"
          else
            "if " ++ condition ++ " \x7b\n" ++ then_block ++
              "\x7d else \x7b\n" ++ else_block ++ "\x7d")
termination_by 8 * sizeOf pair
decreasing_by all_goals (simp_wf <;> omega)

/-- `transpile_loop_stmt`. -/
def transpile_loop_stmt (pair : Pair) : Option String :=
  match pair with
  | .mk _ _ [] => some ""
  | .mk _ _ (p :: _) => do
    let body ← transpile_block p
    pure (if body = "" then "" else "loop \x7b\n" ++ body ++ "\x7d")
termination_by 8 * sizeOf pair
decreasing_by all_goals (simp_wf <;> omega)

/-- `transpile_block`: concatenate the lowered `statement` children in
source order. -/
def transpile_block (pair : Pair) : Option String :=
  match pair with
  | .mk _ _ cs => block_loop cs
termination_by 8 * sizeOf pair
decreasing_by all_goals (simp_wf <;> omega)

/-- The loop inside `transpile_block`. -/
def block_loop : List Pair → Option String
  | [] => some ""
  | s :: rest =>
    if s.rule = Rule.statement then do
      let out ← transpile_statement s
      let tail ← block_loop rest
      pure (out ++ tail)
    else block_loop rest
termination_by l => 8 * sizeOf l
decreasing_by all_goals (simp_wf <;> omega)

end

/-- The diagnostic built for an input with no statements (the same record is
built both when the parse yields no `program` pair and when the `program`
pair has no `statement` children). -/
def no_statements_error : ZincError :=
  { line := 0
    column := 0
    message := "No statements found"
    suggestion := "Add at least one statement." }

/-- The `for pair in program.into_inner()` loop of `transpile_with_error`:
concatenate the lowered `statement` children and record whether any
`statement` child was seen. -/
def program_loop : List Pair → Option (String × Bool)
  | [] => some ("", false)
  | p :: rest =>
    if p.rule = Rule.statement then do
      let out ← transpile_statement p
      let (tail, _) ← program_loop rest
      pure (out ++ tail, true)
    else program_loop rest

/-- `transpile_with_error`, from the parse result on: `parsed` is the
`pairs.next()` outcome of a successful pest parse (the `program` pair, or
`none` when the parser yielded no pair).  The pest parse itself is external
to the sources modelled here (`grammar.pest` is absent); its failure case is
handled in `transpile_with_error_from_parse`. -/
def transpile_with_error_tree (parsed : Option Pair) :
    Option (Except ZincError String) :=
  match parsed with
  | none => some (Except.error no_statements_error)
  | some program => do
    let (output, saw_statement) ← program_loop program.children
    pure (if saw_statement then Except.ok output
          else Except.error no_statements_error)

/-- `transpile_with_error`, abstracted over the outcome of
`ZincParser::parse` (an `Except`: a pest failure already converted by
`zinc_error_from_pest`, or the optional `program` pair). -/
def transpile_with_error_from_parse (pr : Except ZincError (Option Pair)) :
    Option (Except ZincError String) :=
  match pr with
  | .error e => some (Except.error e)
  | .ok parsed => transpile_with_error_tree parsed

/-- `transpile`: the convenience entry point; logs and discards the
diagnostic, returning empty text on failure. -/
def transpile_from_parse (pr : Except ZincError (Option Pair)) :
    Option String :=
  match transpile_with_error_from_parse pr with
  | none => none
  | some (Except.ok output) => some output
  | some (Except.error _) => some ""

/-! ### Parse-tree constructors

Shorthand for the node shapes the pest grammar produces, used to state the
claims: an operator token, a bare call `f(args)`, a `term` wrapping a call,
a `term` wrapping a bare identifier, a member call `obj.method(args)`
followed by further suffixes, and a pipeline expression `lhs |> rhs`. -/

/-- An operator token node (`op` rule), carrying the operator text. -/
def op_pair (o : String) : Pair :=
  Pair.mk Rule.op o []

/-- An identifier token node. -/
def ident_pair (s : String) : Pair :=
  Pair.mk Rule.identifier s []

/-- A bare call node `f(args)`: callee identifier then the argument list. -/
def call_node (f : String) (args : List Pair) : Pair :=
  Pair.mk Rule.call "" [ident_pair f, Pair.mk Rule.arg_list "" args]

/-- A `term` node wrapping a bare call in its `atom`. -/
def term_of_call (f : String) (args : List Pair) : Pair :=
  Pair.mk Rule.term "" [Pair.mk Rule.atom "" [call_node f args]]

/-- A `term` node wrapping a bare identifier with no suffixes. -/
def ident_term (f : String) : Pair :=
  Pair.mk Rule.term "" [Pair.mk Rule.atom "" [ident_pair f]]

/-- A `term` node for `obj.method(args)` followed by the suffix chain
`more`: identifier atom, then a `member_suffix` wrapped in a `suffix`
node, then the remaining suffixes. -/
def member_term (obj : String) (method : String) (args : List Pair)
    (more : List Pair) : Pair :=
  Pair.mk Rule.term ""
    (Pair.mk Rule.atom "" [ident_pair obj] ::
      Pair.mk Rule.suffix ""
        [Pair.mk Rule.member_suffix ""
          [ident_pair method, Pair.mk Rule.arg_list "" args]] ::
      more)

/-- An `expr` node `lhs |> rhs`. -/
def pipe_expr (lhs : Pair) (rhs : Pair) : Pair :=
  Pair.mk Rule.expr "" [lhs, op_pair "|>", rhs]

/-- An `expr` node wrapping a single term. -/
def expr_of_term (t : Pair) : Pair :=
  Pair.mk Rule.expr "" [t]

/-! ### Spec-side models used by individual claims -/

/-- The arity-checked entries of the member-call rewrite table, as
`(receiver, method, expected argument count)` triples.  `py.eval`
(expected count 1, from `zinc_std::python::eval`) and `spider.get`
(expected counts 1 and 2) are recognized by the table but are *not*
arity-checked by the code, so they are deliberately not listed here. -/
def member_arity_table : List (String × String × Nat) :=
  [("db", "query", 2),
   ("fs", "read", 1),
   ("fs", "write", 2),
   ("html", "select", 2),
   ("json", "parse", 1),
   ("json", "get", 2),
   ("json", "at", 2),
   ("json", "to_string", 1),
   ("spider", "get_proxy", 3)]

/-- One step of the left-to-right operator chain, as the specification
describes it: `|>` pipelines the accumulator into the right-hand term, `+`
wraps both sides in a formatted-concatenation call, a comparison operator
produces the parenthesized infix form, and anything else leaves the
accumulator unchanged. -/
def chain_step (acc : String) (opp : Pair) (rhs : Pair) : Option String :=
  if opp.str = "|>" then transpile_pipeline acc rhs
  else if opp.str = "+" then do
    let r ← transpile_expr rhs
    pure ("format!(\"\x7b\x7d\x7b\x7d\", " ++ acc ++ ", " ++ r ++ ")")
  else if opp.str = "==" ∨ opp.str = "!=" ∨ opp.str = ">" ∨ opp.str = "<" ∨
      opp.str = ">=" ∨ opp.str = "<=" then do
    let r ← transpile_expr rhs
    pure ("(" ++ acc ++ " " ++ opp.str ++ " " ++ r ++ ")")
  else pure acc

/-- Flatten a list of `(operator, term)` node pairs into the child list
shape `op₁ :: t₁ :: op₂ :: t₂ :: …` that an `expr` node carries after its
first term. -/
def interleave : List (Pair × Pair) → List Pair
  | [] => []
  | (o, t) :: rest => o :: t :: interleave rest

/-- Rust's `str::replace` restricted to a one-character pattern, on
character lists. -/
def replace1 (a : Char) (repl : List Char) : List Char → List Char
  | [] => []
  | x :: rest =>
    if x = a then repl ++ replace1 a repl rest
    else x :: replace1 a repl rest

/-- Whether the two-character sequence `[a, b]` occurs in a character
list. -/
def contains2 (a : Char) (b : Char) : List Char → Bool
  | [] => false
  | [_] => false
  | x :: y :: rest => (x = a && y = b) || contains2 a b (y :: rest)

/-- The body of an emitted raw string literal `r#"body"#`: the output text
with the three-character prefix `r#"` and two-character suffix `"#`
removed. -/
def raw_literal_body (out : String) : List Char :=
  ((out.toList.drop 3).dropLast).dropLast

/-- A Rust raw string literal `r#"body"#` lexes as a single string literal
iff its body does not contain the closing delimiter sequence `"#`. -/
def raw_literal_well_formed (out : String) : Bool :=
  !(contains2 '"' '#' (raw_literal_body out))

/-- Modelled from the spec: a token of a string literal's content as the
grammar accepts it — an escaped quote `\"`, an escaped backslash `\\`, or
a single character that is neither a quote nor a backslash (the side
condition `tok_ok`).  `grammar.pest` is absent from the sources; this is
the string-content grammar the specification describes ("literal escaped
quotes and escaped backslashes"). -/
inductive StrTok : Type where
  | esc_quote
  | esc_backslash
  | chr (c : Char)
deriving DecidableEq, Repr

/-- The source text of one string-content token. -/
def flatten_tok : StrTok → List Char
  | .esc_quote => ['\\', '"']
  | .esc_backslash => ['\\', '\\']
  | .chr c => [c]

/-- The source text of a string literal's content (between the quotes). -/
def flatten : List StrTok → List Char
  | [] => []
  | t :: ts => flatten_tok t ++ flatten ts

/-- The content after the first replace pass (`\"` → `"`): escaped quotes
are decoded, escaped backslashes still doubled. -/
def flatten_mid : List StrTok → List Char
  | [] => []
  | .esc_quote :: ts => '"' :: flatten_mid ts
  | .esc_backslash :: ts => '\\' :: '\\' :: flatten_mid ts
  | .chr c :: ts => c :: flatten_mid ts

/-- The decoded characters of a token list (both escapes decoded). -/
def decode : List StrTok → List Char
  | [] => []
  | .esc_quote :: ts => '"' :: decode ts
  | .esc_backslash :: ts => '\\' :: decode ts
  | .chr c :: ts => c :: decode ts

/-- The side condition on a plain-character token: not a quote and not a
backslash (those must be escaped in the literal). -/
def tok_ok : StrTok → Bool
  | .chr c => !(c = '"' || c = '\\')
  | _ => true

/-- Modelled from the spec: "reversing the raw-wrap/unescape step" — strip
the `r#"` / `"#` raw-string delimiters from the emitted text, then
re-escape: double every backslash, then escape every quote. -/
def reverse_raw_wrap (out : String) : String :=
  let body := ((out.toList.drop 3).dropLast).dropLast
  String.mk (replace1 '"' ['\\', '"'] (replace1 '\\' ['\\', '\\'] body))

mutual

/-- Modelled from the spec: the well-formedness invariant of
grammar-produced parse trees that the lowering relies on — every `suffix`
node has at least one child (in pest, `suffix` wraps exactly one
`indexing_suffix` or `member_suffix`).  `grammar.pest` is absent from the
sources. -/
def suffix_wf : Pair → Bool
  | .mk r _ cs =>
    (if r = Rule.suffix then !cs.isEmpty else true) && suffix_wf_list cs
termination_by p => 8 * sizeOf p
decreasing_by all_goals (simp_wf <;> omega)

/-- `suffix_wf` on every node of a list. -/
def suffix_wf_list : List Pair → Bool
  | [] => true
  | p :: rest => suffix_wf p && suffix_wf_list rest
termination_by l => 8 * sizeOf l
decreasing_by all_goals (simp_wf <;> omega)

end

/-! ### Supporting lemmas -/

/-- A string accepted by `is_simple_identifier` is non-empty. -/
theorem is_simple_identifier_ne_empty {v : String}
    (h : is_simple_identifier v = true) : v ≠ "" := by
  intro hv
  subst hv
  simp [is_simple_identifier] at h

/-! ### C8: `db.query` arity -/

/-- C8: the member call `db.query` lowers to the database-query call
spelling exactly when two arguments are supplied; for every argument list
of any other length it lowers to empty text (the function produces only
text, never a diagnostic). -/
theorem db_query_two_args_only :
    (∀ a b : String,
      transpile_member_call_with_args "db" "query" [a, b] =
        "zinc_std::db::query(" ++ a ++ ", " ++ b ++ ")") ∧
    (∀ args : List String, args.length ≠ 2 →
      transpile_member_call_with_args "db" "query" args = "") := by
  constructor
  · intro a b
    simp [transpile_member_call_with_args]
  · intro args h
    rcases args with _ | ⟨a, _ | ⟨b, _ | ⟨c, rest⟩⟩⟩
    · simp [transpile_member_call_with_args]
    · simp [transpile_member_call_with_args]
    · simp at h
    · simp [transpile_member_call_with_args]

/-- Witness for C8 at concrete inputs. -/
theorem db_query_two_args_only_witness :
    transpile_member_call_with_args "db" "query" ["u", "s"] =
      "zinc_std::db::query(" ++ "u" ++ ", " ++ "s" ++ ")" ∧
    transpile_member_call_with_args "db" "query" ["u"] = "" :=
  ⟨db_query_two_args_only.1 "u" "s",
   db_query_two_args_only.2 ["u"] (by decide)⟩

/-! ### C2: arity mismatches on recognized member-call pairs -/

/-- C2 (amended): for every arity-checked entry of the member-call rewrite
table (all recognized pairs except `py.eval` and `spider.get`), an
argument list whose length differs from the expected count lowers to empty
text, with no partial output and no diagnostic; `spider.get` lowers to
empty text only for an empty argument list. -/
theorem member_arity_mismatch_empty :
    (∀ obj method n, (obj, method, n) ∈ member_arity_table →
      ∀ args : List String, args.length ≠ n →
        transpile_member_call_with_args obj method args = "") ∧
    transpile_member_call_with_args "spider" "get" [] = "" := by
  constructor
  · intro obj method n hmem args hlen
    fin_cases hmem <;>
      rcases args with _ | ⟨a, _ | ⟨b, _ | ⟨c, _ | ⟨d, rest⟩⟩⟩⟩ <;>
        first
          | (exact absurd rfl hlen)
          | simp [transpile_member_call_with_args]
  · simp [transpile_member_call_with_args]

/-- Counterexample for C2 as stated: `py.eval` is a recognized pair whose
runtime spelling (`zinc_std::python::eval`) takes one argument, yet two
arguments lower to a non-empty pass-through; `spider.get` expects one or
two arguments, yet three arguments lower to the two-argument form instead
of empty text. -/
theorem member_arity_mismatch_counterexample :
    transpile_member_call_with_args "py" "eval" ["a", "b"] =
      "zinc_std::python::eval(a, b)" ∧
    transpile_member_call_with_args "py" "eval" ["a", "b"] ≠ "" ∧
    transpile_member_call_with_args "spider" "get" ["a", "b", "c"] =
      "zinc_std::spider::get(a, Some(b))" ∧
    transpile_member_call_with_args "spider" "get" ["a", "b", "c"] ≠ "" := by
  refine ⟨by decide, by decide, by decide, by decide⟩

/-- Witness for C2 at concrete inputs. -/
theorem member_arity_mismatch_empty_witness :
    transpile_member_call_with_args "db" "query" ["x"] = "" ∧
    transpile_member_call_with_args "spider" "get_proxy" ["x"] = "" :=
  ⟨member_arity_mismatch_empty.1 "db" "query" 2 (by decide) ["x"] (by decide),
   member_arity_mismatch_empty.1 "spider" "get_proxy" 3 (by decide) ["x"]
     (by decide)⟩

/-! ### C7: `spider.get` with and without a profile -/

/-- C7: for all identifier-valued `url` and `profile` tokens, the member
call `spider.get(url)` lowers to the profile-less fetch form
(`None` profile), and `spider.get(url, profile)` lowers to the fetch form
with the profile populated (`Some(profile)`). -/
theorem spider_get_profile_forms :
    ∀ url profile : String,
      is_simple_identifier url = true →
      is_simple_identifier profile = true →
      transpile_expr (expr_of_term
          (member_term "spider" "get" [ident_pair url] [])) =
        some ("zinc_std::spider::get(" ++ url ++ ", None)") ∧
      transpile_expr (expr_of_term
          (member_term "spider" "get" [ident_pair url, ident_pair profile] [])) =
        some ("zinc_std::spider::get(" ++ url ++ ", Some(" ++ profile ++ "))") := by
  intro url profile hu hp
  have hu' : url ≠ "" := is_simple_identifier_ne_empty hu
  have hp' : profile ≠ "" := is_simple_identifier_ne_empty hp
  constructor <;>
    simp [expr_of_term, member_term, ident_pair, transpile_expr, transpile_term,
      transpile_atom, apply_suffixes, transpile_suffix,
      transpile_suffix_unwrapped, transpile_arg_list, arg_loop, expr_chain,
      Pair.str, Pair.rule, Pair.children, hu', hp',
      transpile_member_call_with_args,
      show is_simple_identifier "spider" = true from by decide]

/-- Witness for C7 at concrete identifier tokens. -/
theorem spider_get_profile_forms_witness :
    transpile_expr (expr_of_term
        (member_term "spider" "get" [ident_pair "url"] [])) =
      some ("zinc_std::spider::get(" ++ "url" ++ ", None)") ∧
    transpile_expr (expr_of_term
        (member_term "spider" "get"
          [ident_pair "url", ident_pair "profile"] [])) =
      some ("zinc_std::spider::get(" ++ "url" ++ ", Some(" ++ "profile" ++ "))") :=
  spider_get_profile_forms "url" "profile" (by decide) (by decide)

/-! ### C9: the convenience entry point -/

/-- C9: for every parse outcome, the convenience entry point `transpile`
returns exactly the output text of `transpile_with_error` when that
succeeds, and empty text when it returns a diagnostic (the diagnostic is
discarded, never propagated). -/
theorem transpile_matches_with_error :
    ∀ pr : Except ZincError (Option Pair),
      (∀ out, transpile_with_error_from_parse pr = some (Except.ok out) →
        transpile_from_parse pr = some out) ∧
      (∀ e, transpile_with_error_from_parse pr = some (Except.error e) →
        transpile_from_parse pr = some "") := by
  intro pr
  constructor <;> intro x h <;> simp [transpile_from_parse, h]

/-- Witness for C9: a failing parse outcome yields empty text, and a
one-statement program yields its output text. -/
theorem transpile_matches_with_error_witness :
    transpile_from_parse (Except.error no_statements_error) = some "" ∧
    transpile_from_parse (Except.ok (some (Pair.mk Rule.program ""
        [Pair.mk Rule.statement "" [Pair.mk Rule.break_stmt "" []]]))) =
      some "break;" :=
  ⟨(transpile_matches_with_error (Except.error no_statements_error)).2
      no_statements_error (by simp [transpile_with_error_from_parse]),
   (transpile_matches_with_error _).1 "break;"
      (by simp [transpile_with_error_from_parse, transpile_with_error_tree,
        program_loop, transpile_statement, transpile_break_stmt,
        Pair.rule, Pair.children])⟩

/-! ### C3: syntactic validity of the emitted text -/

/-- C3: at the failing input `print("a\"#b")` the code emits
`println!("{:?}", r#"a"#b"#)`: the string literal's content unescapes to
`a"#b`, which contains the raw-string closing delimiter `"#`, so the
emitted raw string literal terminates early and the emitted statement is
not syntactically valid Rust — against the claim (and the specification's
stated guarantee), which the code's own raw-wrap scheme cannot uphold for
such contents. -/
theorem print_escaped_quote_hash_invalid :
    transpile_string "\"a\\\"#b\"" = "r#\"a\"#b\"#" ∧
    raw_literal_well_formed (transpile_string "\"a\\\"#b\"") = false ∧
    transpile_call_with_args "print" [transpile_string "\"a\\\"#b\""] =
      "println!(\"\x7b:?\x7d\", r#\"a\"#b\"#)" := by
  refine ⟨by decide, by decide, by decide⟩

/-! ### C6: left-to-right flat operator chains -/

/-- The chain loop of `transpile_expr` is a left fold of `chain_step` over
the `(operator, term)` pairs: after each operator the accumulated output
becomes the left operand of the next. -/
theorem expr_chain_interleave :
    ∀ (chain : List (Pair × Pair)) (acc : String),
      expr_chain acc (interleave chain) =
        List.foldlM (fun acc2 ot => chain_step acc2 ot.1 ot.2) acc chain := by
  intro chain
  induction chain with
  | nil => intro acc; simp [interleave, expr_chain]
  | cons ot rest ih =>
    intro acc
    obtain ⟨o, t⟩ := ot
    simp only [interleave, List.foldlM_cons]
    by_cases h1 : o.str = "|>"
    · have hcs : chain_step acc o t = transpile_pipeline acc t := by
        simp [chain_step, h1]
      rw [hcs]
      simp only [expr_chain, h1, if_true, reduceIte]
      cases hp : transpile_pipeline acc t <;> simp [hp, ih]
    · by_cases h2 : o.str = "+"
      · have hcs : chain_step acc o t = (do
            let r ← transpile_expr t
            pure ("format!(\"\x7b\x7d\x7b\x7d\", " ++ acc ++ ", " ++ r ++ ")")) := by
          simp [chain_step, h1, h2]
        rw [hcs]
        simp only [expr_chain, h1, h2, if_false, if_true, reduceIte]
        cases hr : transpile_expr t <;> simp [hr, ih]
      · by_cases h3 : o.str = "==" ∨ o.str = "!=" ∨ o.str = ">" ∨ o.str = "<" ∨
            o.str = ">=" ∨ o.str = "<="
        · have hcs : chain_step acc o t = (do
              let r ← transpile_expr t
              pure ("(" ++ acc ++ " " ++ o.str ++ " " ++ r ++ ")")) := by
            simp [chain_step, h1, h2, h3]
          rw [hcs]
          simp only [expr_chain, h1, h2, h3, if_false, if_true, reduceIte]
          cases hr : transpile_expr t <;> simp [hr, ih]
        · have hcs : chain_step acc o t = some acc := by
            simp [chain_step, h1, h2, h3]
          rw [hcs]
          simp only [expr_chain, h1, h2, h3, if_false, reduceIte]
          simp [ih]

/-- C6: lowering a chain `t₁ op₁ t₂ … opₙ tₙ₊₁` is a single left-to-right
flat pass with no precedence table — a left fold whose step (`chain_step`)
feeds the accumulated output as the left operand of the next operator,
lowers `+` to a formatted-concatenation call, and lowers each comparison
operator to the parenthesized infix form `(lhs OP rhs)`. -/
theorem expr_lowering_is_flat_left_fold :
    ∀ (t0 : Pair) (chain : List (Pair × Pair)),
      transpile_expr (Pair.mk Rule.expr "" (t0 :: interleave chain)) =
        (do
          let init ← transpile_expr t0
          List.foldlM (fun acc ot => chain_step acc ot.1 ot.2) init chain) := by
  intro t0 chain
  simp only [transpile_expr]
  cases h0 : transpile_expr t0 <;> simp [h0, expr_chain_interleave]

/-! ### C5: the empty-program diagnostic -/

/-- The program loop over children none of which are `statement` nodes
produces empty output and records that no statement was seen. -/
theorem program_loop_no_statement :
    ∀ cs : List Pair, (∀ c ∈ cs, c.rule ≠ Rule.statement) →
      program_loop cs = some ("", false) := by
  intro cs h
  induction cs with
  | nil => simp [program_loop]
  | cons c rest ih =>
    have hc : c.rule ≠ Rule.statement := h c (by simp)
    have hrest : ∀ c2 ∈ rest, c2.rule ≠ Rule.statement := fun c2 hm =>
      h c2 (by simp [hm])
    simp [program_loop, hc, ih hrest]

/-- C5 (amended): for every parse that succeeds with a `program` node
containing zero `statement` children, `transpile_with_error` returns the
empty-program diagnostic — message `"No statements found"`, location
`(0,0)`, suggestion `"Add at least one statement."` (with a trailing
period) — and no partial output text. -/
theorem empty_program_diagnostic :
    ∀ program : Pair,
      (∀ c ∈ program.children, c.rule ≠ Rule.statement) →
      transpile_with_error_tree (some program) =
        some (Except.error
          { line := 0, column := 0, message := "No statements found",
            suggestion := "Add at least one statement." }) := by
  intro program h
  simp [transpile_with_error_tree, program_loop_no_statement program.children h,
    no_statements_error]

/-- Counterexample for C5 as stated: at the concrete zero-statement
program the diagnostic is produced with location `(0,0)` and message
`"No statements found"`, but its suggestion string is
`"Add at least one statement."`, not the claimed
`"Add at least one statement"`. -/
theorem empty_program_suggestion_counterexample :
    transpile_with_error_tree (some (Pair.mk Rule.program "" [])) =
      some (Except.error no_statements_error) ∧
    no_statements_error.message = "No statements found" ∧
    no_statements_error.line = 0 ∧
    no_statements_error.column = 0 ∧
    no_statements_error.suggestion ≠ "Add at least one statement" := by
  refine ⟨?_, by decide, by decide, by decide, by decide⟩
  simp [transpile_with_error_tree, program_loop, Pair.children,
    no_statements_error]

/-- Witness for C5 at a concrete program whose only child is a structural
token. -/
theorem empty_program_diagnostic_witness :
    transpile_with_error_tree (some (Pair.mk Rule.program ""
        [Pair.mk Rule.other "" []])) =
      some (Except.error
        { line := 0, column := 0, message := "No statements found",
          suggestion := "Add at least one statement." }) :=
  empty_program_diagnostic (Pair.mk Rule.program "" [Pair.mk Rule.other "" []])
    (by intro c hm; simp [Pair.children] at hm; subst hm; simp [Pair.rule])

/-! ### C1: pipeline desugaring -/

/-- C1 (amended): when the piped left operand lowers to *non-empty* text,
pipeline desugaring inserts it as the first argument of the call described
by the right operand: (1) `a |> f(b₁,…,bₙ)` lowers exactly as the direct
call `f(a,b₁,…,bₙ)` (bare-call rewrite table included); (2) `a |> f` with
a bare identifier lowers as the one-argument call `f(a)`; (3)
`a |> obj.method(x₁,…,xₙ)` (with `obj` a simple identifier token and a
non-empty method name, as the grammar produces) lowers as the member-call
rewrite of `obj.method(a,x₁,…,xₙ)`, with any further chained suffixes
applied afterwards. -/
theorem pipeline_inserts_first_argument :
    ∀ (a : Pair) (la : String), transpile_expr a = some la → la ≠ "" →
      (∀ (f : String) (bs : List Pair),
        transpile_expr (pipe_expr a (term_of_call f bs)) =
          transpile_expr (expr_of_term (term_of_call f (a :: bs)))) ∧
      (∀ f : String,
        transpile_expr (pipe_expr a (ident_term f)) =
          transpile_expr (expr_of_term (term_of_call f [a]))) ∧
      (∀ (obj method : String) (xs more : List Pair), method ≠ "" →
        is_simple_identifier obj = true →
        transpile_expr (pipe_expr a (member_term obj method xs more)) =
          transpile_expr (expr_of_term (member_term obj method (a :: xs) more))) := by
  intro a la h hne
  refine ⟨fun f bs => ?_, fun f => ?_, fun obj method xs more hm ho => ?_⟩
  · cases hbs : arg_loop bs <;>
      simp [pipe_expr, op_pair, term_of_call, call_node, ident_pair,
        expr_of_term, transpile_expr, expr_chain, transpile_pipeline,
        pipeline_dispatch, parse_call, transpile_arg_list, arg_loop,
        apply_suffixes, transpile_term, transpile_atom, transpile_call,
        Pair.str, Pair.rule, Pair.children, h, hne, hbs]
  · simp [pipe_expr, op_pair, ident_term, term_of_call, call_node, ident_pair,
      expr_of_term, transpile_expr, expr_chain, transpile_pipeline,
      pipeline_dispatch, parse_call, transpile_arg_list, arg_loop,
      apply_suffixes, transpile_term, transpile_atom, transpile_call,
      Pair.str, Pair.rule, Pair.children, h, hne]
  · cases hxs : arg_loop xs <;>
      simp [pipe_expr, op_pair, member_term, ident_pair, expr_of_term,
        transpile_expr, expr_chain, transpile_pipeline, pipeline_dispatch,
        pipeline_ident_suffix, parse_call, transpile_arg_list, arg_loop,
        apply_suffixes, transpile_term, transpile_atom, transpile_call,
        transpile_suffix, transpile_suffix_unwrapped,
        Pair.str, Pair.rule, Pair.children, h, hne, hm, ho, hxs]

/-- Counterexample for C1 as stated (without the non-empty condition): the
expression `db.query(x)` lowers to empty text (silent arity drop), so
`db.query(x) |> f(b)` lowers to `f(, b)` while the direct call
`f(db.query(x), b)` lowers to `f(b)` — the two outputs differ (and the
former is not even well-formed). -/
theorem pipeline_empty_lhs_counterexample :
    transpile_expr (pipe_expr (member_term "db" "query" [ident_pair "x"] [])
        (term_of_call "f" [ident_pair "b"])) = some "f(, b)" ∧
    transpile_expr (expr_of_term (term_of_call "f"
        [member_term "db" "query" [ident_pair "x"] [], ident_pair "b"])) =
      some "f(b)" ∧
    ("f(, b)" : String) ≠ "f(b)" := by
  refine ⟨?_, ?_, by decide⟩
  · simp [pipe_expr, op_pair, member_term, term_of_call, call_node, ident_pair,
      transpile_expr, expr_chain, transpile_pipeline, pipeline_dispatch,
      pipeline_ident_suffix, parse_call, transpile_arg_list, arg_loop,
      apply_suffixes, transpile_term, transpile_atom, transpile_call,
      transpile_suffix, transpile_suffix_unwrapped, is_simple_identifier,
      transpile_member_call_with_args, transpile_call_with_args,
      Pair.str, Pair.rule, Pair.children]
    decide
  · simp [expr_of_term, member_term, term_of_call, call_node, ident_pair,
      transpile_expr, expr_chain, transpile_pipeline, pipeline_dispatch,
      parse_call, transpile_arg_list, arg_loop,
      apply_suffixes, transpile_term, transpile_atom, transpile_call,
      transpile_suffix, transpile_suffix_unwrapped, is_simple_identifier,
      transpile_member_call_with_args, transpile_call_with_args,
      Pair.str, Pair.rule, Pair.children]
    decide

/-- Witness for C1 at concrete inputs (left operand `x`, which lowers to
the non-empty text `x`). -/
theorem pipeline_inserts_first_argument_witness :
    (transpile_expr (pipe_expr (ident_pair "x")
        (term_of_call "f" [ident_pair "b"])) =
      transpile_expr (expr_of_term
        (term_of_call "f" [ident_pair "x", ident_pair "b"]))) ∧
    (transpile_expr (pipe_expr (ident_pair "x") (ident_term "g")) =
      transpile_expr (expr_of_term (term_of_call "g" [ident_pair "x"]))) ∧
    (transpile_expr (pipe_expr (ident_pair "x")
        (member_term "o" "m" [] [])) =
      transpile_expr (expr_of_term (member_term "o" "m" [ident_pair "x"] []))) := by
  have h := pipeline_inserts_first_argument (ident_pair "x") "x"
    (by simp [ident_pair, transpile_expr]) (by decide)
  exact ⟨h.1 "f" [ident_pair "b"], h.2.1 "g",
    h.2.2 "o" "m" [] [] (by decide) (by decide)⟩

/-! ### C4: string-literal round trip -/

/-- The flattened text of a token list is empty only for the empty token
list. -/
theorem flatten_eq_nil : ∀ ts : List StrTok, flatten ts = [] → ts = [] := by
  intro ts h
  cases ts with
  | nil => rfl
  | cons t ts' => cases t <;> simp [flatten, flatten_tok] at h

/-- The mid-pass text of a token list is empty only for the empty token
list. -/
theorem flatten_mid_eq_nil : ∀ ts : List StrTok, flatten_mid ts = [] → ts = [] := by
  intro ts h
  cases ts with
  | nil => rfl
  | cons t ts' => cases t <;> simp [flatten_mid] at h

/-- A well-formed literal content never starts with a bare quote. -/
theorem flatten_head_ne_quote :
    ∀ ts : List StrTok, ts.all tok_ok = true →
      ∀ y rest, flatten ts = y :: rest → y ≠ '"' := by
  intro ts h y rest hf
  cases ts with
  | nil => simp [flatten] at hf
  | cons t ts' =>
    cases t with
    | esc_quote =>
      have he : flatten (StrTok.esc_quote :: ts') = '\\' :: '"' :: flatten ts' := rfl
      rw [he] at hf
      injection hf with h1 h2
      rw [← h1]
      decide
    | esc_backslash =>
      have he : flatten (StrTok.esc_backslash :: ts') = '\\' :: '\\' :: flatten ts' := rfl
      rw [he] at hf
      injection hf with h1 h2
      rw [← h1]
      decide
    | chr c =>
      have he : flatten (StrTok.chr c :: ts') = c :: flatten ts' := rfl
      rw [he] at hf
      injection hf with h1 h2
      rw [← h1]
      simp [List.all_cons, tok_ok] at h
      exact h.1.1

/-- First unescape pass over well-formed content: every `\"` becomes `"`,
escaped backslashes stay doubled. -/
theorem replace_flatten_quote :
    ∀ ts : List StrTok, ts.all tok_ok = true →
      replace2 '\\' '"' ['"'] (flatten ts) = flatten_mid ts := by
  intro ts
  induction ts with
  | nil => intro h; rfl
  | cons t ts' ih =>
    intro h
    rw [List.all_cons, Bool.and_eq_true] at h
    have h' : ts'.all tok_ok = true := h.2
    cases t with
    | esc_quote =>
      show replace2 '\\' '"' ['"'] ('\\' :: '"' :: flatten ts') =
        '"' :: flatten_mid ts'
      rw [replace2, if_pos (by decide)]
      simp [ih h']
    | esc_backslash =>
      show replace2 '\\' '"' ['"'] ('\\' :: '\\' :: flatten ts') =
        '\\' :: '\\' :: flatten_mid ts'
      rw [replace2, if_neg (by decide)]
      congr 1
      cases hft : flatten ts' with
      | nil =>
        rw [flatten_eq_nil ts' hft]
        rfl
      | cons y rest =>
        have hy : y ≠ '"' := flatten_head_ne_quote ts' h' y rest hft
        rw [replace2, if_neg (by simp [hy]), ← hft, ih h']
    | chr c =>
      have hc0 : tok_ok (StrTok.chr c) = true := h.1
      have hcq : c ≠ '"' := by
        intro hq
        rw [hq] at hc0
        simp [tok_ok] at hc0
      have hcb : c ≠ '\\' := by
        intro hb
        rw [hb] at hc0
        simp [tok_ok] at hc0
      show replace2 '\\' '"' ['"'] (c :: flatten ts') = c :: flatten_mid ts'
      cases hft : flatten ts' with
      | nil =>
        rw [flatten_eq_nil ts' hft]
        rfl
      | cons y rest =>
        rw [replace2, if_neg (by simp [hcb]), ← hft, ih h']

/-- Second unescape pass: every doubled backslash collapses. -/
theorem replace_flatten_backslash :
    ∀ ts : List StrTok, ts.all tok_ok = true →
      replace2 '\\' '\\' ['\\'] (flatten_mid ts) = decode ts := by
  intro ts
  induction ts with
  | nil => intro h; rfl
  | cons t ts' ih =>
    intro h
    rw [List.all_cons, Bool.and_eq_true] at h
    have h' : ts'.all tok_ok = true := h.2
    cases t with
    | esc_quote =>
      show replace2 '\\' '\\' ['\\'] ('"' :: flatten_mid ts') = '"' :: decode ts'
      cases hft : flatten_mid ts' with
      | nil =>
        rw [flatten_mid_eq_nil ts' hft]
        rfl
      | cons y rest =>
        rw [replace2, if_neg (by simp), ← hft, ih h']
    | esc_backslash =>
      show replace2 '\\' '\\' ['\\'] ('\\' :: '\\' :: flatten_mid ts') =
        '\\' :: decode ts'
      rw [replace2, if_pos (by decide)]
      simp [ih h']
    | chr c =>
      have hc0 : tok_ok (StrTok.chr c) = true := h.1
      have hcq : c ≠ '"' := by
        intro hq
        rw [hq] at hc0
        simp [tok_ok] at hc0
      have hcb : c ≠ '\\' := by
        intro hb
        rw [hb] at hc0
        simp [tok_ok] at hc0
      show replace2 '\\' '\\' ['\\'] (c :: flatten_mid ts') = c :: decode ts'
      cases hft : flatten_mid ts' with
      | nil =>
        rw [flatten_mid_eq_nil ts' hft]
        rfl
      | cons y rest =>
        rw [replace2, if_neg (by simp [hcb]), ← hft, ih h']

/-- Re-escaping, first pass: every backslash of the decoded content is
doubled. -/
theorem escape_backslash_decode :
    ∀ ts : List StrTok, ts.all tok_ok = true →
      replace1 '\\' ['\\', '\\'] (decode ts) = flatten_mid ts := by
  intro ts
  induction ts with
  | nil => intro h; rfl
  | cons t ts' ih =>
    intro h
    rw [List.all_cons, Bool.and_eq_true] at h
    have h' : ts'.all tok_ok = true := h.2
    cases t with
    | esc_quote =>
      show replace1 '\\' ['\\', '\\'] ('"' :: decode ts') = '"' :: flatten_mid ts'
      rw [replace1, if_neg (by decide), ih h']
    | esc_backslash =>
      show replace1 '\\' ['\\', '\\'] ('\\' :: decode ts') =
        '\\' :: '\\' :: flatten_mid ts'
      rw [replace1, if_pos (by decide)]
      simp [ih h']
    | chr c =>
      have hc0 : tok_ok (StrTok.chr c) = true := h.1
      have hcq : c ≠ '"' := by
        intro hq
        rw [hq] at hc0
        simp [tok_ok] at hc0
      have hcb : c ≠ '\\' := by
        intro hb
        rw [hb] at hc0
        simp [tok_ok] at hc0
      show replace1 '\\' ['\\', '\\'] (c :: decode ts') = c :: flatten_mid ts'
      rw [replace1, if_neg hcb, ih h']

/-- Re-escaping, second pass: every bare quote of the mid-pass content is
escaped, recovering the original literal content. -/
theorem escape_quote_mid :
    ∀ ts : List StrTok, ts.all tok_ok = true →
      replace1 '"' ['\\', '"'] (flatten_mid ts) = flatten ts := by
  intro ts
  induction ts with
  | nil => intro h; rfl
  | cons t ts' ih =>
    intro h
    rw [List.all_cons, Bool.and_eq_true] at h
    have h' : ts'.all tok_ok = true := h.2
    cases t with
    | esc_quote =>
      show replace1 '"' ['\\', '"'] ('"' :: flatten_mid ts') =
        '\\' :: '"' :: flatten ts'
      rw [replace1, if_pos (by decide)]
      simp [ih h']
    | esc_backslash =>
      show replace1 '"' ['\\', '"'] ('\\' :: '\\' :: flatten_mid ts') =
        '\\' :: '\\' :: flatten ts'
      rw [replace1, if_neg (by decide), replace1, if_neg (by decide), ih h']
    | chr c =>
      have hc0 : tok_ok (StrTok.chr c) = true := h.1
      have hcq : c ≠ '"' := by
        intro hq
        rw [hq] at hc0
        simp [tok_ok] at hc0
      have hcb : c ≠ '\\' := by
        intro hb
        rw [hb] at hc0
        simp [tok_ok] at hc0
      show replace1 '"' ['\\', '"'] (c :: flatten_mid ts') = c :: flatten ts'
      rw [replace1, if_neg hcq, ih h']

/-- C4: for every string literal the (spec-modelled) grammar accepts —
content a sequence of escaped quotes, escaped backslashes, and plain
non-quote non-backslash characters — lowering the literal and then
reversing the raw-wrap/unescape step reproduces the original literal
content exactly. -/
theorem string_literal_round_trip :
    ∀ ts : List StrTok, ts.all tok_ok = true →
      reverse_raw_wrap (transpile_string
          (String.mk ('"' :: (flatten ts ++ ['"'])))) =
        String.mk (flatten ts) := by
  intro ts h
  have hlen : ¬((String.mk ('"' :: (flatten ts ++ ['"']))).length < 2) := by
    simp [String.length]
  rw [transpile_string, if_neg hlen]
  have htl : (String.mk ('"' :: (flatten ts ++ ['"']))).toList =
      '"' :: (flatten ts ++ ['"']) := rfl
  rw [htl]
  have hinner : (('"' :: (flatten ts ++ ['"'])).drop 1).dropLast = flatten ts := by
    simp [List.dropLast_concat]
  rw [hinner]
  simp only [replace_flatten_quote ts h, replace_flatten_backslash ts h]
  simp only [reverse_raw_wrap]
  have hbody :
      (((String.mk ("r#\"".toList ++ decode ts ++ "\"#".toList)).toList.drop 3).dropLast).dropLast =
        decode ts := by
    have h1 : (String.mk ("r#\"".toList ++ decode ts ++ "\"#".toList)).toList =
        'r' :: '#' :: '"' :: (decode ts ++ ['"', '#']) := by
      show "r#\"".toList ++ decode ts ++ "\"#".toList =
        'r' :: '#' :: '"' :: (decode ts ++ ['"', '#'])
      simp
    rw [h1]
    show ((decode ts ++ ['"', '#']).dropLast).dropLast = decode ts
    have h2 : decode ts ++ ['"', '#'] = (decode ts ++ ['"']) ++ ['#'] := by simp
    rw [h2, List.dropLast_concat, List.dropLast_concat]
  simp only [hbody, escape_backslash_decode ts h, escape_quote_mid ts h]

/-- Witness for C4 at a concrete token list (`a`, escaped quote, escaped
backslash — source content `a\"\\`). -/
theorem string_literal_round_trip_witness :
    reverse_raw_wrap (transpile_string (String.mk ('"' ::
        (flatten [StrTok.chr 'a', StrTok.esc_quote, StrTok.esc_backslash] ++ ['"'])))) =
      String.mk (flatten [StrTok.chr 'a', StrTok.esc_quote, StrTok.esc_backslash]) :=
  string_literal_round_trip
    [StrTok.chr 'a', StrTok.esc_quote, StrTok.esc_backslash] (by decide)

/-! ### C10: totality of the lowering on grammar-shaped trees -/

/-- The children of a well-formed node form a well-formed list. -/
theorem wf_list_of_wf {r : Rule} {s : String} {cs : List Pair}
    (h : suffix_wf (Pair.mk r s cs) = true) : suffix_wf_list cs = true := by
  simp only [suffix_wf, Bool.and_eq_true] at h
  exact h.2

/-- The head of a well-formed list is well-formed. -/
theorem wf_head {p : Pair} {l : List Pair}
    (h : suffix_wf_list (p :: l) = true) : suffix_wf p = true := by
  simp only [suffix_wf_list, Bool.and_eq_true] at h
  exact h.1

/-- The tail of a well-formed list is well-formed. -/
theorem wf_tail {p : Pair} {l : List Pair}
    (h : suffix_wf_list (p :: l) = true) : suffix_wf_list l = true := by
  simp only [suffix_wf_list, Bool.and_eq_true] at h
  exact h.2

set_option maxHeartbeats 1600000

mutual

theorem transpile_expr_total : ∀ p : Pair, suffix_wf p = true →
    (transpile_expr p).isSome = true := by
  intro p
  obtain ⟨r, s, cs⟩ := p
  intro hwf
  have hl : suffix_wf_list cs = true := wf_list_of_wf hwf
  cases r
  case expr =>
    rcases cs with _ | ⟨first, rest⟩
    · simp [transpile_expr]
    · have h1 := transpile_expr_total first (wf_head hl)
      obtain ⟨v, hv⟩ := Option.isSome_iff_exists.mp h1
      have h2 := expr_chain_total v rest (wf_tail hl)
      simp [transpile_expr, hv, h2]
  case term => simpa [transpile_expr] using transpile_term_total (.mk .term s cs) hwf
  case call => simpa [transpile_expr] using transpile_call_total (.mk .call s cs) hwf
  case array => simpa [transpile_expr] using transpile_array_total (.mk .array s cs) hwf
  all_goals simp [transpile_expr]
termination_by p => 8 * sizeOf p + 2
decreasing_by all_goals (simp_wf <;> omega)

theorem expr_chain_total : ∀ (acc : String) (l : List Pair),
    suffix_wf_list l = true → (expr_chain acc l).isSome = true := by
  intro acc l
  rcases l with _ | ⟨opp, _ | ⟨rhs, rest⟩⟩ <;> intro hwf
  · simp [expr_chain]
  · simp [expr_chain]
  · have hr : suffix_wf rhs = true := wf_head (wf_tail hwf)
    have hrest : suffix_wf_list rest = true := wf_tail (wf_tail hwf)
    have hall : ∀ acc2 : String, (expr_chain acc2 rest).isSome = true :=
      fun acc2 => expr_chain_total acc2 rest hrest
    by_cases h1 : opp.str = "|>"
    · have hp := transpile_pipeline_total acc rhs hr
      obtain ⟨v, hv⟩ := Option.isSome_iff_exists.mp hp
      simp [expr_chain, h1, hv, hall]
    · by_cases h2 : opp.str = "+"
      · have he := transpile_expr_total rhs hr
        obtain ⟨v, hv⟩ := Option.isSome_iff_exists.mp he
        simp [expr_chain, h1, h2, hv, hall]
      · by_cases h3 : opp.str = "==" ∨ opp.str = "!=" ∨ opp.str = ">" ∨
            opp.str = "<" ∨ opp.str = ">=" ∨ opp.str = "<="
        · have he := transpile_expr_total rhs hr
          obtain ⟨v, hv⟩ := Option.isSome_iff_exists.mp he
          simp [expr_chain, h1, h2, h3, hv, hall]
        · simp [expr_chain, h1, h2, h3, hall]
termination_by acc l => 8 * sizeOf l
decreasing_by all_goals (simp_wf <;> omega)

theorem transpile_call_total : ∀ p : Pair, suffix_wf p = true →
    (transpile_call p).isSome = true := by
  intro p hwf
  have hp := parse_call_total p hwf
  obtain ⟨v, hv⟩ := Option.isSome_iff_exists.mp hp
  simp [transpile_call, hv]
termination_by p => 8 * sizeOf p + 1
decreasing_by all_goals (simp_wf <;> omega)

theorem parse_call_total : ∀ p : Pair, suffix_wf p = true →
    (parse_call p).isSome = true := by
  intro p
  obtain ⟨r, s, cs⟩ := p
  intro hwf
  have hl := wf_list_of_wf hwf
  rcases cs with _ | ⟨p1, _ | ⟨p2, rest⟩⟩
  · simp [parse_call]
  · simp [parse_call]
  · have h2 := transpile_arg_list_total p2 (wf_head (wf_tail hl))
    obtain ⟨v, hv⟩ := Option.isSome_iff_exists.mp h2
    simp [parse_call, hv]
termination_by p => 8 * sizeOf p
decreasing_by all_goals (simp_wf <;> omega)

theorem transpile_arg_list_total : ∀ p : Pair, suffix_wf p = true →
    (transpile_arg_list p).isSome = true := by
  intro p
  obtain ⟨r, s, cs⟩ := p
  intro hwf
  simpa [transpile_arg_list] using arg_loop_total cs (wf_list_of_wf hwf)
termination_by p => 8 * sizeOf p
decreasing_by all_goals (simp_wf <;> omega)

theorem arg_loop_total : ∀ l : List Pair, suffix_wf_list l = true →
    (arg_loop l).isSome = true := by
  intro l
  rcases l with _ | ⟨arg, rest⟩ <;> intro hwf
  · simp [arg_loop]
  · have h1 := transpile_expr_total arg (wf_head hwf)
    obtain ⟨v, hv⟩ := Option.isSome_iff_exists.mp h1
    have h2 := arg_loop_total rest (wf_tail hwf)
    obtain ⟨t, ht⟩ := Option.isSome_iff_exists.mp h2
    simp [arg_loop, hv, ht]
termination_by l => 8 * sizeOf l
decreasing_by all_goals (simp_wf <;> omega)

theorem transpile_array_total : ∀ p : Pair, suffix_wf p = true →
    (transpile_array p).isSome = true := by
  intro p
  obtain ⟨r, s, cs⟩ := p
  intro hwf
  have hl := wf_list_of_wf hwf
  rcases cs with _ | ⟨el, rest⟩
  · simp [transpile_array]
  · obtain ⟨r2, s2, elcs⟩ := el
    have h1 := array_loop_total elcs (wf_list_of_wf (wf_head hl))
    obtain ⟨v, hv⟩ := Option.isSome_iff_exists.mp h1
    simp [transpile_array, hv]
termination_by p => 8 * sizeOf p
decreasing_by all_goals (simp_wf <;> omega)

theorem array_loop_total : ∀ l : List Pair, suffix_wf_list l = true →
    (array_loop l).isSome = true := by
  intro l
  rcases l with _ | ⟨e, rest⟩ <;> intro hwf
  · simp [array_loop]
  · have h2 := array_loop_total rest (wf_tail hwf)
    obtain ⟨t, ht⟩ := Option.isSome_iff_exists.mp h2
    by_cases he : e.rule = Rule.expr
    · have h1 := transpile_expr_total e (wf_head hwf)
      obtain ⟨v, hv⟩ := Option.isSome_iff_exists.mp h1
      simp [array_loop, he, hv, ht]
    · simp [array_loop, he, ht]
termination_by l => 8 * sizeOf l
decreasing_by all_goals (simp_wf <;> omega)

theorem transpile_pipeline_total : ∀ (lhs : String) (p : Pair),
    suffix_wf p = true → (transpile_pipeline lhs p).isSome = true := by
  intro lhs p
  obtain ⟨r, s, cs⟩ := p
  intro hwf
  have hl := wf_list_of_wf hwf
  cases r
  case term =>
    rcases cs with _ | ⟨atom0, suffixes⟩
    · simp [transpile_pipeline]
    · obtain ⟨ra, sa, csa⟩ := atom0
      have ha : suffix_wf (Pair.mk ra sa csa) = true := wf_head hl
      have hs : suffix_wf_list suffixes = true := wf_tail hl
      cases ra
      case atom =>
        rcases csa with _ | ⟨ia, resta⟩
        · simp [transpile_pipeline]
        · have hia : suffix_wf ia = true := wf_head (wf_list_of_wf ha)
          simpa [transpile_pipeline] using
            pipeline_dispatch_total lhs ia suffixes hia hs
      all_goals
        simpa [transpile_pipeline] using
          pipeline_dispatch_total lhs (Pair.mk _ sa csa) suffixes ha hs
  all_goals
    (obtain ⟨v, hv⟩ := Option.isSome_iff_exists.mp (transpile_expr_total _ hwf)
     simp [transpile_pipeline, hv])
termination_by lhs p => 8 * sizeOf p + 3
decreasing_by all_goals (simp_wf <;> omega)

theorem pipeline_dispatch_total : ∀ (lhs : String) (a : Pair)
    (sfxs : List Pair), suffix_wf a = true → suffix_wf_list sfxs = true →
    (pipeline_dispatch lhs a sfxs).isSome = true := by
  intro lhs a sfxs
  obtain ⟨ra, sa, csa⟩ := a
  intro ha hs
  cases ra
  case call =>
    have hp := parse_call_total (Pair.mk Rule.call sa csa) ha
    obtain ⟨⟨name, args⟩, hv⟩ := Option.isSome_iff_exists.mp hp
    have happ := apply_suffixes_total
      (transpile_call_with_args name (lhs :: args)) sfxs hs
    simp [pipeline_dispatch, hv, happ]
  case identifier =>
    rcases sfxs with _ | ⟨first, rest⟩
    · simp [pipeline_dispatch]
    · obtain ⟨rf, sf, csf⟩ := first
      have hf : suffix_wf (Pair.mk rf sf csf) = true := wf_head hs
      have hrest : suffix_wf_list rest = true := wf_tail hs
      cases rf
      case suffix =>
        rcases csf with _ | ⟨fs, restf⟩
        · exfalso
          simp [suffix_wf, suffix_wf_list] at hf
        · have hfs : suffix_wf fs = true := wf_head (wf_list_of_wf hf)
          simpa [pipeline_dispatch] using
            pipeline_ident_suffix_total lhs sa fs rest hfs hrest
      all_goals
        simpa [pipeline_dispatch] using
          pipeline_ident_suffix_total lhs sa (Pair.mk _ sf csf) rest hf hrest
  all_goals
    (obtain ⟨v, hv⟩ := Option.isSome_iff_exists.mp (transpile_atom_total _ ha)
     obtain ⟨v2, hv2⟩ := Option.isSome_iff_exists.mp (apply_suffixes_total v sfxs hs)
     simp [pipeline_dispatch, hv, hv2])
termination_by lhs a sfxs => 8 * (sizeOf a + sizeOf sfxs) + 7
decreasing_by all_goals (simp_wf <;> omega)

theorem pipeline_ident_suffix_total : ∀ (lhs ident : String) (fs : Pair)
    (rest : List Pair), suffix_wf fs = true → suffix_wf_list rest = true →
    (pipeline_ident_suffix lhs ident fs rest).isSome = true := by
  intro lhs ident fs rest
  obtain ⟨rf, sf, csf⟩ := fs
  intro hf hrest
  cases rf
  case member_suffix =>
    have happ : ∀ out : String, (apply_suffixes out rest).isSome = true :=
      fun out => apply_suffixes_total out rest hrest
    rcases csf with _ | ⟨m, _ | ⟨p2, r2⟩⟩
    · simp [pipeline_ident_suffix, happ]
    · simp [pipeline_ident_suffix, happ]
    · have ha := transpile_arg_list_total p2
        (wf_head (wf_tail (wf_list_of_wf hf)))
      obtain ⟨args, hv⟩ := Option.isSome_iff_exists.mp ha
      simp [pipeline_ident_suffix, hv, happ]
  all_goals
    (obtain ⟨v, hv⟩ := Option.isSome_iff_exists.mp
      (transpile_suffix_total ident (Pair.mk _ sf csf) hf)
     obtain ⟨v2, hv2⟩ := Option.isSome_iff_exists.mp
      (apply_suffixes_total v rest hrest)
     simp [pipeline_ident_suffix, hv, hv2])
termination_by lhs ident fs rest => 8 * (sizeOf fs + sizeOf rest) + 6
decreasing_by all_goals (simp_wf <;> omega)

theorem apply_suffixes_total : ∀ (current : String) (l : List Pair),
    suffix_wf_list l = true → (apply_suffixes current l).isSome = true := by
  intro current l
  rcases l with _ | ⟨sfx, rest⟩ <;> intro hwf
  · simp [apply_suffixes]
  · obtain ⟨v, hv⟩ := Option.isSome_iff_exists.mp
      (transpile_suffix_total current sfx (wf_head hwf))
    have h2 := apply_suffixes_total v rest (wf_tail hwf)
    simp [apply_suffixes, hv, h2]
termination_by current l => 8 * sizeOf l
decreasing_by all_goals (simp_wf <;> omega)

theorem transpile_term_total : ∀ p : Pair, suffix_wf p = true →
    (transpile_term p).isSome = true := by
  intro p
  obtain ⟨r, s, cs⟩ := p
  intro hwf
  have hl := wf_list_of_wf hwf
  rcases cs with _ | ⟨a, sfx⟩
  · simp [transpile_term]
  · obtain ⟨v, hv⟩ := Option.isSome_iff_exists.mp
      (transpile_atom_total a (wf_head hl))
    have happ := apply_suffixes_total v sfx (wf_tail hl)
    simp [transpile_term, hv, happ]
termination_by p => 8 * sizeOf p
decreasing_by all_goals (simp_wf <;> omega)

theorem transpile_atom_total : ∀ p : Pair, suffix_wf p = true →
    (transpile_atom p).isSome = true := by
  intro p
  obtain ⟨r, s, cs⟩ := p
  intro hwf
  have hl := wf_list_of_wf hwf
  cases r
  case atom =>
    rcases cs with _ | ⟨c0, rest⟩
    · simp [transpile_atom]
    · simpa [transpile_atom] using transpile_atom_total c0 (wf_head hl)
  case array =>
    simpa [transpile_atom] using transpile_array_total (.mk .array s cs) hwf
  case call =>
    simpa [transpile_atom] using transpile_call_total (.mk .call s cs) hwf
  case expr =>
    simpa [transpile_atom] using transpile_expr_total (.mk .expr s cs) hwf
  case term =>
    simpa [transpile_atom] using transpile_term_total (.mk .term s cs) hwf
  all_goals simp [transpile_atom]
termination_by p => 8 * sizeOf p + 3
decreasing_by all_goals (simp_wf <;> omega)

theorem transpile_suffix_total : ∀ (current : String) (sfx : Pair),
    suffix_wf sfx = true → (transpile_suffix current sfx).isSome = true := by
  intro current sfx
  obtain ⟨r, s, cs⟩ := sfx
  intro hwf
  cases r
  case suffix =>
    rcases cs with _ | ⟨s1, rest⟩
    · exfalso
      simp [suffix_wf, suffix_wf_list] at hwf
    · simpa [transpile_suffix] using
        transpile_suffix_unwrapped_total current s1 (wf_head (wf_list_of_wf hwf))
  all_goals
    simpa [transpile_suffix] using
      transpile_suffix_unwrapped_total current (Pair.mk _ s cs) hwf
termination_by current sfx => 8 * sizeOf sfx + 1
decreasing_by all_goals (simp_wf <;> omega)

theorem transpile_suffix_unwrapped_total : ∀ (current : String) (s : Pair),
    suffix_wf s = true → (transpile_suffix_unwrapped current s).isSome = true := by
  intro current s
  obtain ⟨r, st, cs⟩ := s
  intro hwf
  have hl := wf_list_of_wf hwf
  cases r
  case indexing_suffix =>
    rcases cs with _ | ⟨p1, rest⟩
    · simp [transpile_suffix_unwrapped]
    · obtain ⟨v, hv⟩ := Option.isSome_iff_exists.mp
        (transpile_expr_total p1 (wf_head hl))
      simp [transpile_suffix_unwrapped, hv]
  case member_suffix =>
    rcases cs with _ | ⟨m, _ | ⟨p2, rest⟩⟩
    · simp [transpile_suffix_unwrapped]
    · simp [transpile_suffix_unwrapped]
    · obtain ⟨v, hv⟩ := Option.isSome_iff_exists.mp
        (transpile_arg_list_total p2 (wf_head (wf_tail hl)))
      simp [transpile_suffix_unwrapped, hv]
  all_goals simp [transpile_suffix_unwrapped]
termination_by current s => 8 * sizeOf s
decreasing_by all_goals (simp_wf <;> omega)

end

mutual

theorem transpile_statement_total : ∀ p : Pair, suffix_wf p = true →
    (transpile_statement p).isSome = true := by
  intro p
  obtain ⟨r, s, cs⟩ := p
  intro hwf
  have hl := wf_list_of_wf hwf
  rcases cs with _ | ⟨ip, rest⟩
  · simp [transpile_statement]
  · have hip : suffix_wf ip = true := wf_head hl
    obtain ⟨ri, si, csi⟩ := ip
    cases ri
    case expr_stmt =>
      simpa [transpile_statement, Pair.rule] using
        transpile_expr_stmt_total (.mk .expr_stmt si csi) hip
    case let_stmt =>
      simpa [transpile_statement, Pair.rule] using
        transpile_let_stmt_total (.mk .let_stmt si csi) hip
    case if_stmt =>
      simpa [transpile_statement, Pair.rule] using
        transpile_if_stmt_total (.mk .if_stmt si csi) hip
    case loop_stmt =>
      simpa [transpile_statement, Pair.rule] using
        transpile_loop_stmt_total (.mk .loop_stmt si csi) hip
    case fn_def =>
      simpa [transpile_statement, Pair.rule] using
        transpile_fn_def_total (.mk .fn_def si csi) hip
    all_goals simp [transpile_statement, Pair.rule]
termination_by p => 8 * sizeOf p + 1
decreasing_by all_goals (simp_wf <;> omega)

theorem transpile_fn_def_total : ∀ p : Pair, suffix_wf p = true →
    (transpile_fn_def p).isSome = true := by
  intro p
  obtain ⟨r, s, cs⟩ := p
  intro hwf
  simpa [transpile_fn_def] using fn_def_loop_total cs (wf_list_of_wf hwf)
termination_by p => 8 * sizeOf p
decreasing_by all_goals (simp_wf <;> omega)

theorem fn_def_loop_total : ∀ l : List Pair, suffix_wf_list l = true →
    (fn_def_loop l).isSome = true := by
  intro l
  rcases l with _ | ⟨c, rest⟩ <;> intro hwf
  · simp [fn_def_loop]
  · by_cases hc : c.rule = Rule.block
    · simpa [fn_def_loop, hc] using transpile_block_total c (wf_head hwf)
    · simpa [fn_def_loop, hc] using fn_def_loop_total rest (wf_tail hwf)
termination_by l => 8 * sizeOf l
decreasing_by all_goals (simp_wf <;> omega)

theorem transpile_let_stmt_total : ∀ p : Pair, suffix_wf p = true →
    (transpile_let_stmt p).isSome = true := by
  intro p
  obtain ⟨r, s, cs⟩ := p
  intro hwf
  have hl := wf_list_of_wf hwf
  rcases cs with _ | ⟨p1, _ | ⟨p2, rest⟩⟩
  · simp [transpile_let_stmt]
  · simp [transpile_let_stmt]
  · obtain ⟨v, hv⟩ := Option.isSome_iff_exists.mp
      (transpile_expr_total p2 (wf_head (wf_tail hl)))
    simp [transpile_let_stmt, hv]
termination_by p => 8 * sizeOf p
decreasing_by all_goals (simp_wf <;> omega)

theorem transpile_expr_stmt_total : ∀ p : Pair, suffix_wf p = true →
    (transpile_expr_stmt p).isSome = true := by
  intro p
  obtain ⟨r, s, cs⟩ := p
  intro hwf
  have hl := wf_list_of_wf hwf
  rcases cs with _ | ⟨e, rest⟩
  · simp [transpile_expr_stmt]
  · obtain ⟨v, hv⟩ := Option.isSome_iff_exists.mp
      (transpile_expr_total e (wf_head hl))
    simp [transpile_expr_stmt, hv]
termination_by p => 8 * sizeOf p
decreasing_by all_goals (simp_wf <;> omega)

theorem transpile_if_stmt_total : ∀ p : Pair, suffix_wf p = true →
    (transpile_if_stmt p).isSome = true := by
  intro p
  obtain ⟨r, s, cs⟩ := p
  intro hwf
  have hl := wf_list_of_wf hwf
  rcases cs with _ | ⟨p1, _ | ⟨p2, _ | ⟨p3, rest⟩⟩⟩
  · simp [transpile_if_stmt]
  · obtain ⟨v1, hv1⟩ := Option.isSome_iff_exists.mp
      (transpile_expr_total p1 (wf_head hl))
    simp [transpile_if_stmt, hv1]
  · obtain ⟨v1, hv1⟩ := Option.isSome_iff_exists.mp
      (transpile_expr_total p1 (wf_head hl))
    obtain ⟨v2, hv2⟩ := Option.isSome_iff_exists.mp
      (transpile_block_total p2 (wf_head (wf_tail hl)))
    simp [transpile_if_stmt, hv1, hv2]
  · obtain ⟨v1, hv1⟩ := Option.isSome_iff_exists.mp
      (transpile_expr_total p1 (wf_head hl))
    obtain ⟨v2, hv2⟩ := Option.isSome_iff_exists.mp
      (transpile_block_total p2 (wf_head (wf_tail hl)))
    obtain ⟨v3, hv3⟩ := Option.isSome_iff_exists.mp
      (transpile_block_total p3 (wf_head (wf_tail (wf_tail hl))))
    simp [transpile_if_stmt, hv1, hv2, hv3]
termination_by p => 8 * sizeOf p
decreasing_by all_goals (simp_wf <;> omega)

theorem transpile_loop_stmt_total : ∀ p : Pair, suffix_wf p = true →
    (transpile_loop_stmt p).isSome = true := by
  intro p
  obtain ⟨r, s, cs⟩ := p
  intro hwf
  have hl := wf_list_of_wf hwf
  rcases cs with _ | ⟨b, rest⟩
  · simp [transpile_loop_stmt]
  · obtain ⟨v, hv⟩ := Option.isSome_iff_exists.mp
      (transpile_block_total b (wf_head hl))
    simp [transpile_loop_stmt, hv]
termination_by p => 8 * sizeOf p
decreasing_by all_goals (simp_wf <;> omega)

theorem transpile_block_total : ∀ p : Pair, suffix_wf p = true →
    (transpile_block p).isSome = true := by
  intro p
  obtain ⟨r, s, cs⟩ := p
  intro hwf
  simpa [transpile_block] using block_loop_total cs (wf_list_of_wf hwf)
termination_by p => 8 * sizeOf p
decreasing_by all_goals (simp_wf <;> omega)

theorem block_loop_total : ∀ l : List Pair, suffix_wf_list l = true →
    (block_loop l).isSome = true := by
  intro l
  rcases l with _ | ⟨st, rest⟩ <;> intro hwf
  · simp [block_loop]
  · obtain ⟨t, ht⟩ := Option.isSome_iff_exists.mp
      (block_loop_total rest (wf_tail hwf))
    by_cases hs : st.rule = Rule.statement
    · obtain ⟨v, hv⟩ := Option.isSome_iff_exists.mp
        (transpile_statement_total st (wf_head hwf))
      simp [block_loop, hs, hv, ht]
    · simp [block_loop, hs, ht]
termination_by l => 8 * sizeOf l
decreasing_by all_goals (simp_wf <;> omega)

end

set_option maxHeartbeats 200000

/-- The program loop returns a value for every well-formed child list. -/
theorem program_loop_total : ∀ l : List Pair, suffix_wf_list l = true →
    (program_loop l).isSome = true := by
  intro l
  induction l with
  | nil => intro hwf; simp [program_loop]
  | cons p rest ih =>
    intro hwf
    obtain ⟨t, ht⟩ := Option.isSome_iff_exists.mp (ih (wf_tail hwf))
    by_cases hp : p.rule = Rule.statement
    · obtain ⟨v, hv⟩ := Option.isSome_iff_exists.mp
        (transpile_statement_total p (wf_head hwf))
      obtain ⟨t2, saw⟩ := t
      simp [program_loop, hp, hv, ht]
    · simp [program_loop, hp, ht]

/-- C10: on every parse tree whose `suffix` nodes each wrap at least one
child — the shape the grammar produces (modelled from the spec, since
`grammar.pest` is absent) — the `unwrap` inside `unwrap_suffix` cannot
fail and the whole lowering returns a value (output text or diagnostic)
without panicking. -/
theorem lowering_total_on_wf_trees :
    ∀ p : Pair, suffix_wf p = true →
      (unwrap_suffix p).isSome = true ∧
      (transpile_with_error_tree (some p)).isSome = true := by
  intro p hwf
  constructor
  · obtain ⟨r, s, cs⟩ := p
    by_cases hr : r = Rule.suffix
    · subst hr
      rcases cs with _ | ⟨c, rest⟩
      · exfalso
        simp [suffix_wf, suffix_wf_list] at hwf
      · simp [unwrap_suffix, Pair.rule, Pair.children]
    · simp [unwrap_suffix, Pair.rule, hr]
  · obtain ⟨r, s, cs⟩ := p
    obtain ⟨v, hv⟩ := Option.isSome_iff_exists.mp
      (program_loop_total cs (wf_list_of_wf hwf))
    obtain ⟨out, saw⟩ := v
    cases saw <;> simp [transpile_with_error_tree, Pair.children, hv]

/-- Witness for C10 at a concrete one-statement program tree. -/
theorem lowering_total_on_wf_trees_witness :
    (unwrap_suffix (Pair.mk Rule.program ""
        [Pair.mk Rule.statement "" [Pair.mk Rule.break_stmt "" []]])).isSome = true ∧
    (transpile_with_error_tree (some (Pair.mk Rule.program ""
        [Pair.mk Rule.statement "" [Pair.mk Rule.break_stmt "" []]]))).isSome = true :=
  lowering_total_on_wf_trees
    (Pair.mk Rule.program "" [Pair.mk Rule.statement "" [Pair.mk Rule.break_stmt "" []]])
    (by simp [suffix_wf, suffix_wf_list])

end Zinc
